import Mathlib

/-!
Verification of the project-isolation hook module
(`amplifier_module_hooks_project_isolation/__init__.py`).

The Python source is shallowly embedded below: pure helpers
(`_generate_slug`, `_generate_path_hash`, path basename) become Lean
functions on `List Char` / `Nat`; the filesystem and subprocess effects of
`on_session_start` become explicit state passing over a small filesystem
state record, with fallible steps returning `Except`.
-/

namespace ProjectIsolation

/-! ## Character classes used by `_generate_slug`

`_generate_slug` applies, in order:
  1. `str.lower()`
  2. `re.sub(r'[\s_]+', '-', slug)`   (runs of whitespace/underscore → one hyphen)
  3. `re.sub(r'[^a-z0-9-]', '', slug)` (strip everything outside [a-z0-9-])
  4. `re.sub(r'-+', '-', slug)`        (collapse runs of hyphens)
  5. `slug.strip('-')`                 (trim hyphens at both ends)
  6. fallback to "default" when empty.
Characters are identified by their code points so that all later reasoning
is plain arithmetic. -/

/-- `[a-z0-9-]`: the characters kept by step 3 of `_generate_slug`. -/
def isSlugChar (c : Char) : Bool :=
  (97 ≤ c.toNat && c.toNat ≤ 122) || (48 ≤ c.toNat && c.toNat ≤ 57) || c.toNat = 45

/-- `[a-z0-9]` (a slug character other than the hyphen). -/
def isLowerAlnum (c : Char) : Bool :=
  (97 ≤ c.toNat && c.toNat ≤ 122) || (48 ≤ c.toNat && c.toNat ≤ 57)

/-- The class `[\s_]` of Python's `re.sub(r'[\s_]+', '-', ...)` restricted to
its ASCII members (space, tab, newline, carriage return, vertical tab, form
feed, underscore).  Non-ASCII whitespace lowers to itself and is removed by
the `[^a-z0-9-]` strip in any case, so this restriction does not affect any
property proved below. -/
def isWsUnderscore (c : Char) : Bool :=
  c.toNat = 32 || c.toNat = 9 || c.toNat = 10 || c.toNat = 13 ||
  c.toNat = 11 || c.toNat = 12 || c.toNat = 95

/-- Models Python `str.lower()` on the code points that matter here: ASCII
upper-case letters are shifted by 32, everything else is unchanged.  (A
non-ASCII upper-case letter lowers to a non-ASCII letter in Python; both are
removed by the later `[^a-z0-9-]` strip, so the difference is invisible to
the slug output.) -/
def lowerChar (c : Char) : Char :=
  if 65 ≤ c.toNat && c.toNat ≤ 90 then Char.ofNat (c.toNat + 32) else c

/-- `re.sub(r'[\s_]+', '-', l)`: each maximal run of whitespace/underscore
characters becomes a single hyphen.  The boolean argument records whether the
previous character was part of such a run. -/
def replaceWsAux : Bool → List Char → List Char
  | _, [] => []
  | prevWs, c :: cs =>
    if isWsUnderscore c then
      (if prevWs then [] else ['-']) ++ replaceWsAux true cs
    else
      c :: replaceWsAux false cs

def replaceWsRuns (l : List Char) : List Char := replaceWsAux false l

/-- `re.sub(r'-+', '-', l)`: each maximal run of hyphens becomes a single
hyphen.  The boolean argument records whether the previous character was a
hyphen. -/
def collapseHyphensAux : Bool → List Char → List Char
  | _, [] => []
  | prevH, c :: cs =>
    if c = '-' then
      (if prevH then [] else ['-']) ++ collapseHyphensAux true cs
    else
      c :: collapseHyphensAux false cs

def collapseHyphens (l : List Char) : List Char := collapseHyphensAux false l

/-- Removes the trailing run of hyphens (the right half of
Python's `str.strip('-')`). -/
def dropTrailingHyphens : List Char → List Char
  | [] => []
  | c :: cs =>
    match dropTrailingHyphens cs with
    | [] => if c = '-' then [] else [c]
    | r => c :: r

/-- Python's `str.strip('-')`: drop leading and trailing hyphens. -/
def stripHyphens (l : List Char) : List Char :=
  dropTrailingHyphens (l.dropWhile (· = '-'))

/-- Steps 1-5 of `_generate_slug`: lowercase, runs of whitespace/underscore
to one hyphen, strip characters outside `[a-z0-9-]`, collapse duplicate
hyphens, trim hyphens at both ends. -/
def slugCore (name : String) : List Char :=
  stripHyphens (collapseHyphens
    ((replaceWsRuns (name.data.map lowerChar)).filter isSlugChar))

/-- `_ProjectIsolationHandler._generate_slug` (lines 151-180 of the source):
lowercase, runs of whitespace/underscore to one hyphen, strip characters
outside `[a-z0-9-]`, collapse duplicate hyphens, trim hyphens at both ends,
and fall back to `"default"` when the result is empty. -/
def generate_slug (name : String) : String :=
  if slugCore name = [] then "default" else String.mk (slugCore name)

example : generate_slug "" = "default" := by decide
example : generate_slug "!!!" = "default" := by decide
example : generate_slug "My Project_2" = "my-project-2" := by decide
example : generate_slug "a---b" = "a-b" := by decide
example : generate_slug "-x-" = "x" := by decide
example : generate_slug "project" = "project" := by decide
example : generate_slug "my--project" = "my-project" := by decide
example : generate_slug "project@v2!" = "projectv2" := by decide
example : generate_slug "MyProject" = "myproject" := by decide
example : generate_slug "-project-" = "project" := by decide

/-! ## The slug regular expression `^[a-z0-9]+(-[a-z0-9]+)*$` -/

/-- Deterministic automaton for `^[a-z0-9]+(-[a-z0-9]+)*$`.  The boolean
state is true exactly when at least one `[a-z0-9]` character has been read
in the current segment (so the word read so far is acceptable if the input
ends here). -/
def slugReAux : Bool → List Char → Bool
  | afterAlnum, [] => afterAlnum
  | afterAlnum, c :: cs =>
    if isLowerAlnum c then slugReAux true cs
    else if c = '-' then afterAlnum && slugReAux false cs
    else false

/-- `matchesSlugRe l` holds iff `l` matches `^[a-z0-9]+(-[a-z0-9]+)*$`. -/
def matchesSlugRe (l : List Char) : Bool := slugReAux false l

example : matchesSlugRe "my-project-2".data = true := by decide
example : matchesSlugRe "default".data = true := by decide
example : matchesSlugRe "".data = false := by decide
example : matchesSlugRe "-x".data = false := by decide
example : matchesSlugRe "x-".data = false := by decide
example : matchesSlugRe "a--b".data = false := by decide

/-- No two adjacent hyphens occur, given whether the character just before
the list (if any) was a hyphen. -/
def noDDFrom : Bool → List Char → Bool
  | _, [] => true
  | prevH, c :: cs => !(prevH && decide (c = '-')) && noDDFrom (decide (c = '-')) cs

/-- No two adjacent hyphens anywhere in the list. -/
def noDD (l : List Char) : Bool := noDDFrom false l

theorem noDDFrom_false_of {l : List Char} {b : Bool} (h : noDDFrom b l = true) :
    noDDFrom false l = true := by
  cases l with
  | nil => rfl
  | cons c cs =>
    simp only [noDDFrom, Bool.and_eq_true, Bool.not_eq_true'] at h ⊢
    exact ⟨by simp, h.2⟩

theorem noDDFrom_append_left :
    ∀ (l₁ l₂ : List Char) (b : Bool), noDDFrom b (l₁ ++ l₂) = true → noDDFrom b l₁ = true := by
  intro l₁
  induction l₁ with
  | nil => intro l₂ b _; rfl
  | cons c cs ih =>
    intro l₂ b h
    simp only [List.cons_append, noDDFrom, Bool.and_eq_true] at h ⊢
    exact ⟨h.1, ih l₂ _ h.2⟩

theorem noDDFrom_dropWhile (p : Char → Bool) :
    ∀ l : List Char, noDDFrom false l = true → noDDFrom false (l.dropWhile p) = true := by
  intro l
  induction l with
  | nil => intro h; exact h
  | cons c cs ih =>
    intro h
    simp only [noDDFrom, Bool.and_eq_true] at h
    rw [List.dropWhile_cons]
    by_cases hp : p c = true
    · simp only [hp, if_true]
      exact ih (noDDFrom_false_of h.2)
    · simp only [hp, if_false]
      simp only [noDDFrom, Bool.and_eq_true]
      exact ⟨by simp, h.2⟩

theorem collapseHyphensAux_hyphen_true (cs : List Char) :
    collapseHyphensAux true ('-' :: cs) = collapseHyphensAux true cs := by
  simp [collapseHyphensAux]

theorem collapseHyphensAux_hyphen_false (cs : List Char) :
    collapseHyphensAux false ('-' :: cs) = '-' :: collapseHyphensAux true cs := by
  simp [collapseHyphensAux]

theorem collapseHyphensAux_cons_ne (b : Bool) {c : Char} (cs : List Char) (h : ¬ c = '-') :
    collapseHyphensAux b (c :: cs) = c :: collapseHyphensAux false cs := by
  simp [collapseHyphensAux, h]

theorem collapseHyphensAux_noDD :
    ∀ (l : List Char) (b : Bool), noDDFrom b (collapseHyphensAux b l) = true := by
  intro l
  induction l with
  | nil => intro b; rfl
  | cons c cs ih =>
    intro b
    by_cases hc : c = '-'
    · subst hc
      cases b with
      | true => rw [collapseHyphensAux_hyphen_true]; exact ih true
      | false =>
        rw [collapseHyphensAux_hyphen_false]
        simpa [noDDFrom] using ih true
    · rw [collapseHyphensAux_cons_ne b cs hc]
      simpa [noDDFrom, hc] using ih false

theorem mem_collapseHyphensAux {c : Char} :
    ∀ (l : List Char) (b : Bool), c ∈ collapseHyphensAux b l → c ∈ l ∨ c = '-' := by
  intro l
  induction l with
  | nil => intro b h; simp [collapseHyphensAux] at h
  | cons d ds ih =>
    intro b h
    by_cases hd : d = '-'
    · subst hd
      cases b with
      | true =>
        rw [collapseHyphensAux_hyphen_true] at h
        rcases ih true h with h' | h'
        · exact Or.inl (List.mem_cons_of_mem _ h')
        · exact Or.inr h'
      | false =>
        rw [collapseHyphensAux_hyphen_false, List.mem_cons] at h
        rcases h with h' | h'
        · exact Or.inr h'
        · rcases ih true h' with h'' | h''
          · exact Or.inl (List.mem_cons_of_mem _ h'')
          · exact Or.inr h''
    · rw [collapseHyphensAux_cons_ne b ds hd, List.mem_cons] at h
      rcases h with h' | h'
      · exact Or.inl (h' ▸ List.mem_cons_self _ _)
      · rcases ih false h' with h'' | h''
        · exact Or.inl (List.mem_cons_of_mem _ h'')
        · exact Or.inr h''

theorem collapseHyphensAux_eq_self :
    ∀ (l : List Char) (b : Bool), noDDFrom b l = true → collapseHyphensAux b l = l := by
  intro l
  induction l with
  | nil => intro b _; rfl
  | cons c cs ih =>
    intro b h
    simp only [noDDFrom, Bool.and_eq_true, Bool.not_eq_true'] at h
    by_cases hc : c = '-'
    · subst hc
      cases b with
      | true => simp at h
      | false =>
        rw [collapseHyphensAux_hyphen_false]
        exact congrArg ('-' :: ·) (ih true (by simpa using h.2))
    · rw [collapseHyphensAux_cons_ne b cs hc]
      exact congrArg (c :: ·) (ih false (by simpa [hc] using h.2))

/-! ## Lemmas about hyphen trimming -/

theorem dropTrailingHyphens_cons (c : Char) (cs : List Char) :
    dropTrailingHyphens (c :: cs) =
      match dropTrailingHyphens cs with
      | [] => if c = '-' then [] else [c]
      | r => c :: r := rfl

theorem dropTrailingHyphens_append :
    ∀ l : List Char, ∃ t, l = dropTrailingHyphens l ++ t := by
  intro l
  induction l with
  | nil => exact ⟨[], rfl⟩
  | cons c cs ih =>
    obtain ⟨t, ht⟩ := ih
    cases h : dropTrailingHyphens cs with
    | nil =>
      by_cases hc : c = '-'
      · exact ⟨c :: cs, by simp [dropTrailingHyphens_cons, h, hc]⟩
      · refine ⟨cs, ?_⟩
        simp [dropTrailingHyphens_cons, h, hc]
    | cons x xs =>
      refine ⟨t, ?_⟩
      rw [h] at ht
      rw [dropTrailingHyphens_cons, h, ht]
      simp

theorem dropTrailingHyphens_getLast :
    ∀ l : List Char, (dropTrailingHyphens l).getLast? ≠ some '-' := by
  intro l
  induction l with
  | nil => simp [dropTrailingHyphens]
  | cons c cs ih =>
    cases h : dropTrailingHyphens cs with
    | nil =>
      by_cases hc : c = '-'
      · simp [dropTrailingHyphens, h, hc]
      · simp [dropTrailingHyphens, h, hc]
    | cons x xs =>
      rw [h] at ih
      simpa [dropTrailingHyphens, h] using ih

theorem dropTrailingHyphens_eq_self :
    ∀ l : List Char, l.getLast? ≠ some '-' → dropTrailingHyphens l = l := by
  intro l
  induction l with
  | nil => intro _; rfl
  | cons c cs ih =>
    intro h
    cases cs with
    | nil =>
      have hc : ¬ c = '-' := by simpa using h
      simp [dropTrailingHyphens, hc]
    | cons d ds =>
      have hcs : dropTrailingHyphens (d :: ds) = d :: ds := by
        apply ih
        simpa [List.getLast?_cons_cons] using h
      rw [dropTrailingHyphens_cons, hcs]

theorem dropWhile_hyphen_eq_self (l : List Char) (h : l.head? ≠ some '-') :
    l.dropWhile (· = '-') = l := by
  cases l with
  | nil => rfl
  | cons c cs =>
    have hc : ¬ c = '-' := by simpa using h
    simp [List.dropWhile_cons, hc]

/-- The first element surviving `dropWhile p` fails `p`. -/
theorem dropWhile_head_false (p : Char → Bool) (l : List Char) {c : Char} {cs : List Char}
    (h : l.dropWhile p = c :: cs) : p c = false := by
  have := List.head?_dropWhile_not p l
  rw [h] at this
  simpa using this

theorem mem_of_mem_dropWhile (p : Char → Bool) (l : List Char) {c : Char}
    (h : c ∈ l.dropWhile p) : c ∈ l :=
  (List.dropWhile_sublist p).mem h

/-! ## Characterisation of `slugCore` outputs -/

theorem eq_hyphen_of_toNat {c : Char} (h : c.toNat = 45) : c = '-' := by
  apply Char.ext
  apply UInt32.ext
  show c.val.toNat = ('-').val.toNat
  have hv : ('-').val.toNat = 45 := rfl
  rw [hv]; exact h

theorem isLowerAlnum_of_slugChar {c : Char} (hs : isSlugChar c = true) (hne : ¬ c = '-') :
    isLowerAlnum c = true := by
  simp only [isSlugChar, Bool.or_eq_true, Bool.and_eq_true, decide_eq_true_eq] at hs
  rcases hs with (h | h) | h
  · simp [isLowerAlnum, h.1, h.2]
  · simp [isLowerAlnum, h.1, h.2]
  · exact absurd (eq_hyphen_of_toNat h) hne

theorem slugCore_all (s : String) : ∀ c ∈ slugCore s, isSlugChar c = true := by
  intro c hc
  unfold slugCore stripHyphens at hc
  have hc' : c ∈ (collapseHyphens
      ((replaceWsRuns (s.data.map lowerChar)).filter isSlugChar)).dropWhile (· = '-') := by
    obtain ⟨t, ht⟩ := dropTrailingHyphens_append
      ((collapseHyphens ((replaceWsRuns (s.data.map lowerChar)).filter isSlugChar)).dropWhile (· = '-'))
    rw [ht]
    exact List.mem_append_left t hc
  have hmem := mem_of_mem_dropWhile (· = '-') _ hc'
  rcases mem_collapseHyphensAux _ false hmem with h | h
  · exact (List.mem_filter.mp h).2
  · subst h; decide

theorem slugCore_noDD (s : String) : noDD (slugCore s) = true := by
  unfold slugCore stripHyphens
  obtain ⟨t, ht⟩ := dropTrailingHyphens_append
    ((collapseHyphens ((replaceWsRuns (s.data.map lowerChar)).filter isSlugChar)).dropWhile (· = '-'))
  apply noDDFrom_append_left _ t
  rw [← ht]
  exact noDDFrom_dropWhile _ _ (collapseHyphensAux_noDD _ false)

theorem slugCore_getLast (s : String) : (slugCore s).getLast? ≠ some '-' :=
  dropTrailingHyphens_getLast _

theorem slugCore_head (s : String) {d : Char} {ds : List Char}
    (h : slugCore s = d :: ds) : ¬ d = '-' := by
  unfold slugCore stripHyphens at h
  obtain ⟨t, ht⟩ := dropTrailingHyphens_append
    ((collapseHyphens ((replaceWsRuns (s.data.map lowerChar)).filter isSlugChar)).dropWhile (· = '-'))
  rw [h] at ht
  have := dropWhile_head_false (· = '-') _ ht
  simpa using this

/-- A nonempty list of slug characters with no adjacent hyphens and no
hyphen at either end is accepted by the automaton for
`^[a-z0-9]+(-[a-z0-9]+)*$`. -/
theorem slugReAux_of_good :
    ∀ (l : List Char) (b : Bool),
      (∀ c ∈ l, isSlugChar c = true) → noDD l = true → l.getLast? ≠ some '-' →
      (b = false → ∃ d ds, l = d :: ds ∧ isLowerAlnum d = true) →
      slugReAux b l = true := by
  intro l
  induction l with
  | nil =>
    intro b _ _ _ hb
    cases b with
    | true => rfl
    | false => obtain ⟨d, ds, hl, _⟩ := hb rfl; exact absurd hl (by simp)
  | cons c cs ih =>
    intro b hall hdd hlast hb
    have hddcs : noDD cs = true := by
      simp only [noDD, noDDFrom, Bool.and_eq_true] at hdd ⊢
      exact noDDFrom_false_of hdd.2
    have hlastcs : cs ≠ [] → cs.getLast? ≠ some '-' := by
      intro hne
      cases cs with
      | nil => exact absurd rfl hne
      | cons d ds => simpa [List.getLast?_cons_cons] using hlast
    by_cases hA : isLowerAlnum c = true
    · simp only [slugReAux, if_pos hA]
      apply ih true
      · exact fun x hx => hall x (List.mem_cons_of_mem _ hx)
      · exact hddcs
      · intro hl
        cases cs with
        | nil => simp at hl
        | cons d ds => exact hlastcs (by simp) hl
      · intro h; exact absurd h (by simp)
    · have hcs : isSlugChar c = true := hall c (List.mem_cons_self _ _)
      have hchy : c = '-' := by
        by_contra hne
        exact hA (isLowerAlnum_of_slugChar hcs hne)
      subst hchy
      cases b with
      | false =>
        obtain ⟨d, ds, hl, hd⟩ := hb rfl
        rw [List.cons.injEq] at hl
        rw [← hl.1] at hd
        exact absurd hd hA
      | true =>
        cases cs with
        | nil => exact absurd rfl hlast
        | cons d ds =>
          have hd : ¬ d = '-' := by
            simp only [noDD, noDDFrom, Bool.and_eq_true, Bool.not_eq_true'] at hdd
            intro h
            rcases hdd with ⟨_, h2, _⟩
            simp [h] at h2
          have hdalnum : isLowerAlnum d = true :=
            isLowerAlnum_of_slugChar (hall d (List.mem_cons_of_mem _ (List.mem_cons_self _ _))) hd
          simp only [slugReAux, if_neg hA, if_pos rfl, Bool.true_and]
          apply ih false
          · exact fun x hx => hall x (List.mem_cons_of_mem _ hx)
          · exact hddcs
          · exact hlastcs (by simp)
          · intro _; exact ⟨d, ds, rfl, hdalnum⟩

/-- Every `generate_slug` output matches `^[a-z0-9]+(-[a-z0-9]+)*$`
(in particular the fallback `"default"` does). -/
theorem generate_slug_matches (s : String) :
    matchesSlugRe (generate_slug s).data = true := by
  unfold generate_slug
  by_cases h : slugCore s = []
  · rw [if_pos h]; decide
  · rw [if_neg h]
    show slugReAux false (slugCore s) = true
    obtain ⟨d, ds, hl⟩ := List.exists_cons_of_ne_nil h
    apply slugReAux_of_good _ false (slugCore_all s) (slugCore_noDD s) (slugCore_getLast s)
    intro _
    exact ⟨d, ds, hl, isLowerAlnum_of_slugChar
      (slugCore_all s d (hl ▸ List.mem_cons_self d ds)) (slugCore_head s hl)⟩

/-! ## `generate_slug` is idempotent: normalised slugs are fixed points -/

theorem ws_false_of_slugChar {c : Char} (h : isSlugChar c = true) :
    isWsUnderscore c = false := by
  rw [Bool.eq_false_iff]
  intro hw
  simp only [isWsUnderscore, Bool.or_eq_true, decide_eq_true_eq] at hw
  simp only [isSlugChar, Bool.or_eq_true, Bool.and_eq_true, decide_eq_true_eq] at h
  omega

theorem lowerChar_eq_self {c : Char} (h : isSlugChar c = true) : lowerChar c = c := by
  have hn : ¬ (65 ≤ c.toNat && c.toNat ≤ 90) = true := by
    simp only [isSlugChar, Bool.or_eq_true, Bool.and_eq_true, decide_eq_true_eq] at h
    simp only [Bool.and_eq_true, decide_eq_true_eq, not_and]
    omega
  simp [lowerChar, hn]

theorem map_lowerChar_eq_self :
    ∀ l : List Char, (∀ c ∈ l, isSlugChar c = true) → l.map lowerChar = l := by
  intro l
  induction l with
  | nil => intro _; rfl
  | cons c cs ih =>
    intro h
    simp only [List.map_cons]
    rw [lowerChar_eq_self (h c (List.mem_cons_self _ _)),
        ih (fun x hx => h x (List.mem_cons_of_mem _ hx))]

theorem replaceWsAux_eq_self :
    ∀ l : List Char, (∀ c ∈ l, isWsUnderscore c = false) → ∀ b, replaceWsAux b l = l := by
  intro l
  induction l with
  | nil => intro _ b; rfl
  | cons c cs ih =>
    intro h b
    have hc : isWsUnderscore c = false := h c (List.mem_cons_self _ _)
    simp only [replaceWsAux, hc, Bool.false_eq_true, if_false]
    exact congrArg (c :: ·) (ih (fun x hx => h x (List.mem_cons_of_mem _ hx)) false)

/-- A nonempty normalised slug body passes through all five rewriting steps
unchanged. -/
theorem slugCore_fixed (l : List Char)
    (hall : ∀ c ∈ l, isSlugChar c = true) (hdd : noDD l = true)
    (hh : l.head? ≠ some '-') (hl : l.getLast? ≠ some '-') :
    slugCore (String.mk l) = l := by
  show dropTrailingHyphens ((collapseHyphensAux false
      ((replaceWsAux false ((String.mk l).data.map lowerChar)).filter isSlugChar)).dropWhile
        (· = '-')) = l
  have h1 : (String.mk l).data = l := rfl
  rw [h1, map_lowerChar_eq_self l hall,
      replaceWsAux_eq_self l (fun c hc => ws_false_of_slugChar (hall c hc)) false,
      List.filter_eq_self.mpr hall,
      collapseHyphensAux_eq_self l false hdd,
      dropWhile_hyphen_eq_self l hh,
      dropTrailingHyphens_eq_self l hl]

/-- Every `generate_slug` output is a nonempty normalised slug body. -/
theorem generate_slug_good (s : String) :
    (generate_slug s).data ≠ [] ∧
    (∀ c ∈ (generate_slug s).data, isSlugChar c = true) ∧
    noDD (generate_slug s).data = true ∧
    (generate_slug s).data.head? ≠ some '-' ∧
    (generate_slug s).data.getLast? ≠ some '-' := by
  unfold generate_slug
  by_cases h : slugCore s = []
  · rw [if_pos h]
    exact ⟨by decide, by decide, by decide, by decide, by decide⟩
  · rw [if_neg h]
    have hdata : (String.mk (slugCore s)).data = slugCore s := rfl
    rw [hdata]
    refine ⟨h, slugCore_all s, slugCore_noDD s, ?_, slugCore_getLast s⟩
    cases hc : slugCore s with
    | nil => exact absurd hc h
    | cons d ds =>
      simpa using slugCore_head s hc

theorem generate_slug_idem (s : String) :
    generate_slug (generate_slug s) = generate_slug s := by
  obtain ⟨hne, hall, hdd, hh, hl⟩ := generate_slug_good s
  have hmk : String.mk (generate_slug s).data = generate_slug s := rfl
  have hfix : slugCore (generate_slug s) = (generate_slug s).data := by
    rw [← hmk]
    exact slugCore_fixed _ hall hdd hh hl
  show (if slugCore (generate_slug s) = [] then "default"
        else String.mk (slugCore (generate_slug s))) = generate_slug s
  rw [hfix, if_neg hne, hmk]

/-! ## SHA-256 (FIPS 180-4), as used by `_generate_path_hash`

`_generate_path_hash` (lines 182-196) returns the first 6 hex characters of
`hashlib.sha256(path.encode('utf-8')).hexdigest()`.  The hash is embedded
below over `Nat` with explicit reduction modulo `2 ^ 32`. -/

/-- Truncation to a 32-bit word. -/
def w32 (n : Nat) : Nat := n % 4294967296

/-- Right rotation of a 32-bit word by `k` bits. -/
def rotr (k x : Nat) : Nat := x / 2 ^ k + x % 2 ^ k * 2 ^ (32 - k)

/-- Logical right shift by `k` bits. -/
def shr (k x : Nat) : Nat := x / 2 ^ k

def bSig0 (x : Nat) : Nat := rotr 2 x ^^^ rotr 13 x ^^^ rotr 22 x
def bSig1 (x : Nat) : Nat := rotr 6 x ^^^ rotr 11 x ^^^ rotr 25 x
def sSig0 (x : Nat) : Nat := rotr 7 x ^^^ rotr 18 x ^^^ shr 3 x
def sSig1 (x : Nat) : Nat := rotr 17 x ^^^ rotr 19 x ^^^ shr 10 x

/-- The eight working variables of the SHA-256 compression function. -/
structure Sha256State where
  a : Nat
  b : Nat
  c : Nat
  d : Nat
  e : Nat
  f : Nat
  g : Nat
  h : Nat

/-- The 64 SHA-256 round constants of FIPS 180-4 (in decimal). -/
def shaK : List Nat :=
  [1116352408, 1899447441, 3049323471, 3921009573, 961987163, 1508970993,
   2453635748, 2870763221, 3624381080, 310598401, 607225278, 1426881987,
   1925078388, 2162078206, 2614888103, 3248222580, 3835390401, 4022224774,
   264347078, 604807628, 770255983, 1249150122, 1555081692, 1996064986,
   2554220882, 2821834349, 2952996808, 3210313671, 3336571891, 3584528711,
   113926993, 338241895, 666307205, 773529912, 1294757372, 1396182291,
   1695183700, 1986661051, 2177026350, 2456956037, 2730485921, 2820302411,
   3259730800, 3345764771, 3516065817, 3600352804, 4094571909, 275423344,
   430227734, 506948616, 659060556, 883997877, 958139571, 1322822218,
   1537002063, 1747873779, 1955562222, 2024104815, 2227730452, 2361852424,
   2428436474, 2756734187, 3204031479, 3329325298]

/-- One round of the SHA-256 compression function on constant/schedule pair
`kw`. -/
def shaRound (st : Sha256State) (kw : Nat × Nat) : Sha256State :=
  let ch := (st.e &&& st.f) ^^^ ((4294967295 - st.e) &&& st.g)
  let maj := (st.a &&& st.b) ^^^ (st.a &&& st.c) ^^^ (st.b &&& st.c)
  let t1 := w32 (st.h + bSig1 st.e + ch + kw.1 + kw.2)
  let t2 := w32 (bSig0 st.a + maj)
  ⟨w32 (t1 + t2), st.a, st.b, st.c, w32 (st.d + t1), st.e, st.f, st.g⟩

/-- Extends the 16-word message schedule to 64 words (fuel = 48). -/
def extendWords : Nat → List Nat → List Nat
  | 0, w => w
  | n + 1, w =>
    let m := w.length
    extendWords n (w ++ [w32 (sSig1 (w.getD (m - 2) 0) + w.getD (m - 7) 0 +
      sSig0 (w.getD (m - 15) 0) + w.getD (m - 16) 0)])

/-- Compression of one 16-word block into the running hash state. -/
def processBlock (st : Sha256State) (ws : List Nat) : Sha256State :=
  let w := extendWords 48 ws
  let r := (shaK.zip w).foldl shaRound st
  ⟨w32 (st.a + r.a), w32 (st.b + r.b), w32 (st.c + r.c), w32 (st.d + r.d),
   w32 (st.e + r.e), w32 (st.f + r.f), w32 (st.g + r.g), w32 (st.h + r.h)⟩

/-- 64-bit big-endian encoding of the bit length. -/
def be8 (n : Nat) : List Nat :=
  [n / 2 ^ 56 % 256, n / 2 ^ 48 % 256, n / 2 ^ 40 % 256, n / 2 ^ 32 % 256,
   n / 2 ^ 24 % 256, n / 2 ^ 16 % 256, n / 2 ^ 8 % 256, n % 256]

/-- SHA-256 padding: append `0x80`, zeros to 56 mod 64, and the 64-bit
big-endian bit length. -/
def padMessage (msg : List Nat) : List Nat :=
  msg ++ 128 :: (List.replicate ((119 - msg.length % 64) % 64) 0 ++ be8 (8 * msg.length))

/-- Big-endian packing of bytes into 32-bit words. -/
def bytesToWords : List Nat → List Nat
  | a :: b :: c :: d :: rest => (((a * 256 + b) * 256 + c) * 256 + d) :: bytesToWords rest
  | _ => []

/-- Splits a word list into `n` chunks of 16 words. -/
def chunkWords : Nat → List Nat → List (List Nat)
  | 0, _ => []
  | n + 1, ws => ws.take 16 :: chunkWords n (ws.drop 16)

/-- The SHA-256 hash state of a byte message. -/
def sha256Words (msg : List Nat) : Sha256State :=
  let ws := bytesToWords (padMessage msg)
  (chunkWords (ws.length / 16) ws).foldl processBlock
    ⟨1779033703, 3144134277, 1013904242, 2773480762,
     1359893119, 2600822924, 528734635, 1541459225⟩

/-- 32-bit big-endian byte decomposition. -/
def be4 (w : Nat) : List Nat := [w / 2 ^ 24 % 256, w / 2 ^ 16 % 256, w / 2 ^ 8 % 256, w % 256]

/-- The 32-byte SHA-256 digest of a byte message. -/
def sha256Bytes (msg : List Nat) : List Nat :=
  let st := sha256Words msg
  be4 st.a ++ be4 st.b ++ be4 st.c ++ be4 st.d ++ be4 st.e ++ be4 st.f ++ be4 st.g ++ be4 st.h

/-- Lowercase hex digit of a value below 16. -/
def hexDigit (n : Nat) : Char := if n < 10 then Char.ofNat (48 + n) else Char.ofNat (87 + n)

/-- Lowercase hex rendering of a byte list, two characters per byte. -/
def hexOfBytes : List Nat → List Char
  | [] => []
  | b :: bs => hexDigit (b / 16) :: hexDigit (b % 16) :: hexOfBytes bs

/-- `hashlib.sha256(...).hexdigest()` of a byte message. -/
def sha256Hex (msg : List Nat) : List Char := hexOfBytes (sha256Bytes msg)

/-- UTF-8 encoding of a single code point. -/
def utf8EncodeChar (n : Nat) : List Nat :=
  if n < 128 then [n]
  else if n < 2048 then [192 + n / 64, 128 + n % 64]
  else if n < 65536 then [224 + n / 4096, 128 + n / 64 % 64, 128 + n % 64]
  else [240 + n / 262144, 128 + n / 4096 % 64, 128 + n / 64 % 64, 128 + n % 64]

/-- `str.encode('utf-8')`: the UTF-8 bytes of a character list. -/
def utf8Bytes : List Char → List Nat
  | [] => []
  | c :: cs => utf8EncodeChar c.toNat ++ utf8Bytes cs

/-- `_ProjectIsolationHandler._generate_path_hash` (lines 182-196): the
first 6 hex characters of the SHA-256 digest of the UTF-8 encoding of the
path, taken verbatim. -/
def generate_path_hash (path : String) : String :=
  String.mk ((sha256Hex (utf8Bytes path.data)).take 6)

/-! ## Paths and the project root detector

Project roots are modelled as plain path strings (the string handed to
`Path(...)`; the roots produced by `git rev-parse --show-toplevel` and
`Path.cwd()` are already in the canonical form `pathlib` keeps). -/

/-- The Python whitespace class `[ \t\n\r\v\f]` stripped by `str.strip()`. -/
def isPyWs (c : Char) : Bool :=
  c.toNat = 32 || c.toNat = 9 || c.toNat = 10 || c.toNat = 13 ||
  c.toNat = 11 || c.toNat = 12

/-- Removes the trailing run of whitespace characters. -/
def dropTrailingWs : List Char → List Char
  | [] => []
  | c :: cs =>
    match dropTrailingWs cs with
    | [] => if isPyWs c then [] else [c]
    | r => c :: r

/-- Python's `str.strip()`: remove leading and trailing whitespace. -/
def pyStrip (s : String) : String :=
  String.mk (dropTrailingWs (s.data.dropWhile isPyWs))

/-- Splits a character list at every slash. -/
def splitOnSlash : List Char → List (List Char)
  | [] => [[]]
  | c :: cs =>
    match splitOnSlash cs with
    | [] => [[]]
    | h :: t => if c = '/' then [] :: h :: t else (c :: h) :: t

/-- `pathlib.PurePath(p).name`: the final path component (`pathlib` keeps no
empty and no `"."` components), or the empty string if there is none. -/
def pathName (p : String) : String :=
  let comps := (splitOnSlash p.data).filter (fun c => decide (c ≠ [] ∧ c ≠ ['.']))
  String.mk (comps.getLast?.getD [])

example : pathName "/path1/myapp" = "myapp" := by decide
example : pathName "/test/project" = "project" := by decide
example : pathName "/" = "" := by decide

/-- Outcome of one `subprocess.run(["git", ...])` call: captured stdout on
success, or one of the three exceptions caught by the source
(`CalledProcessError`, `TimeoutExpired`, `FileNotFoundError`). -/
inductive GitOutcome where
  | success (stdout : String)
  | calledProcessError
  | timeoutExpired
  | fileNotFound
deriving DecidableEq

/-- `_get_git_root` (lines 131-149): `Path(result.stdout.strip())` on
success, `None` on any of the three caught exceptions. -/
def get_git_root : GitOutcome → Option String
  | .success out => some (pyStrip out)
  | _ => none

/-- `_get_git_remote` (lines 278-296). -/
def get_git_remote : GitOutcome → Option String
  | .success out => some (pyStrip out)
  | _ => none

/-- `_get_git_branch` (lines 298-316). -/
def get_git_branch : GitOutcome → Option String
  | .success out => some (pyStrip out)
  | _ => none

/-- `_detect_project_root` (lines 116-129): the git top-level directory if
enabled and available, otherwise the current working directory. -/
def detect_project_root (use_git_root : Bool) (git : GitOutcome) (cwd : String) : String :=
  if use_git_root then
    match get_git_root git with
    | some root => root
    | none => cwd
  else cwd

/-! ## JSON documents, the session context and the filesystem state -/

/-- JSON values stored in `metadata.json` fields. -/
inductive JValue where
  | str (s : String)
  | num (n : Int)
  | null
deriving DecidableEq

/-- A JSON object, as the ordered key/value list a Python dict holds. -/
abbrev JObj := List (String × JValue)

def optStr : Option String → JValue
  | some s => .str s
  | none => .null

def dictLookup (k : String) (o : JObj) : Option JValue :=
  (o.find? (fun kv => kv.1 == k)).map (fun kv => kv.2)

/-- `d[k] = v` on a Python dict: replace in place if the key exists,
append otherwise. -/
def dictSet (o : JObj) (k : String) (v : JValue) : JObj :=
  if o.any (fun kv => kv.1 == k) then
    o.map (fun kv => if kv.1 == k then (k, v) else kv)
  else o ++ [(k, v)]

/-- Python `dict.update`: apply `dictSet` for each update pair in order. -/
def dictUpdate (o : JObj) (upd : JObj) : JObj :=
  upd.foldl (fun acc kv => dictSet acc kv.1 kv.2) o

/-- State of `metadata.json` on disk: absent, unparseable (the error
`json.load` would raise), or a parsed JSON object. -/
inductive MetaFile where
  | missing
  | malformed (err : String)
  | doc (o : JObj)
deriving DecidableEq

/-- One record of the `sessions` array of `index.json` (lines 262-266). -/
structure SessionEntry where
  session_id : String
  timestamp : String
  message_count : Nat
deriving DecidableEq

/-- State of `index.json` on disk: absent, unparseable, or a parsed
document (kept as its `sessions` array). -/
inductive IndexFile where
  | missing
  | malformed (err : String)
  | doc (sessions : List SessionEntry)
deriving DecidableEq

/-- The session context dictionary: the three recognised input keys and the
four output keys written by `on_session_start`; `none` models an absent
key. -/
structure Ctx where
  session_id : Option String := none
  message_count : Option Nat := none
  purpose : Option String := none
  storage_path : Option String := none
  project_root : Option String := none
  project_slug : Option String := none
  project_dir_name : Option String := none
deriving DecidableEq

/-- `amplifier_core.models.HookResult` as used here: just the action. -/
structure HookResult where
  action : String
deriving DecidableEq

/-- The handler configuration (`__init__`, lines 53-64). -/
structure Config where
  use_git_root : Bool
  storage_base : String
  create_dirs : Bool

/-- The ambient effects of one `on_session_start` call: current working
directory, the outcomes of the three git subprocess calls, and the
`datetime.now().isoformat()` reading. -/
structure Env where
  cwd : String
  gitTopLevel : GitOutcome
  gitRemote : GitOutcome
  gitBranch : GitOutcome
  now : String

/-- Filesystem state: the directories created so far and the contents of
every `metadata.json` / `index.json`, keyed by full path. -/
structure FsState where
  dirs : List String
  metaFiles : List (String × MetaFile)
  indexFiles : List (String × IndexFile)

def lookupMeta (fs : FsState) (path : String) : MetaFile :=
  match fs.metaFiles.find? (fun kv => kv.1 == path) with
  | some kv => kv.2
  | none => .missing

def lookupIndex (fs : FsState) (path : String) : IndexFile :=
  match fs.indexFiles.find? (fun kv => kv.1 == path) with
  | some kv => kv.2
  | none => .missing

def setMetaFile (fs : FsState) (path : String) (m : MetaFile) : FsState :=
  { fs with metaFiles := (path, m) :: fs.metaFiles }

def setIndexFile (fs : FsState) (path : String) (i : IndexFile) : FsState :=
  { fs with indexFiles := (path, i) :: fs.indexFiles }

/-! ## Metadata store and session index -/

/-- The five fields written by `metadata.update({...})` (lines 227-233). -/
def metaUpdates (full_path : String) (git_remote git_branch : Option String)
    (purpose : Option String) (now : String) : JObj :=
  [("full_path", .str full_path), ("git_remote", optStr git_remote),
   ("git_branch", optStr git_branch), ("last_accessed", .str now),
   ("purpose", .str (purpose.getD "Amplifier CLI session"))]

/-- `_update_project_metadata` (lines 198-237), with the current content of
`metadata.json`, the git query results and the clock passed explicitly.
Returns the document written back; a malformed existing file propagates its
parse error. -/
def update_project_metadata (mf : MetaFile) (project_root : String)
    (git_remote git_branch : Option String) (ctx : Ctx) (now : String) :
    Except String JObj :=
  match mf with
  | .malformed err => .error err
  | .missing =>
    .ok (dictUpdate
      [("first_seen", .str now), ("slug", .str (generate_slug (pathName project_root)))]
      (metaUpdates project_root git_remote git_branch ctx.purpose now))
  | .doc o =>
    .ok (dictUpdate o (metaUpdates project_root git_remote git_branch ctx.purpose now))

/-- The session record built at lines 262-266: session id (default
`"unknown"`), current timestamp, message count (default 0). -/
def mkSessionEntry (ctx : Ctx) (now : String) : SessionEntry :=
  ⟨ctx.session_id.getD "unknown", now, ctx.message_count.getD 0⟩

/-- Inserts an entry into a timestamp-descending list after every entry
with a greater-or-equal timestamp — the position Python's stable
`reverse=True` sort gives a later-appended element. -/
def insertDesc (e : SessionEntry) : List SessionEntry → List SessionEntry
  | [] => [e]
  | x :: xs => if e.timestamp < x.timestamp then x :: insertDesc e xs else e :: x :: xs

/-- `index["sessions"].sort(key=lambda s: s["timestamp"], reverse=True)`:
Python's stable sort, most recent timestamp first (ISO timestamps compare
lexicographically), as an insertion sort. -/
def sortSessionsDesc : List SessionEntry → List SessionEntry
  | [] => []
  | e :: rest => insertDesc e (sortSessionsDesc rest)

/-- `_update_project_index` (lines 239-276): append one record built from
the context, then re-sort by timestamp descending.  Returns the `sessions`
array written back; a malformed existing file propagates its parse
error. -/
def update_project_index (f : IndexFile) (ctx : Ctx) (now : String) :
    Except String (List SessionEntry) :=
  match f with
  | .malformed err => .error err
  | .missing => .ok (sortSessionsDesc ([] ++ [mkSessionEntry ctx now]))
  | .doc sessions => .ok (sortSessionsDesc (sessions ++ [mkSessionEntry ctx now]))

/-! ## The session-start orchestrator -/

/-- `f"{project_slug}-{path_hash}"` (lines 84-91): the collision-proof
project directory name derived from the root path. -/
def projectDirName (project_root : String) : String :=
  generate_slug (pathName project_root) ++ "-" ++ generate_path_hash project_root

/-- `storage_base / project_dir_name` (line 92). -/
def projectDirOf (cfg : Config) (project_root : String) : String :=
  cfg.storage_base ++ "/" ++ projectDirName project_root

/-- `project_dir / "sessions"` (line 95). -/
def storagePathOf (cfg : Config) (project_root : String) : String :=
  projectDirOf cfg project_root ++ "/sessions"

def metaPathOf (cfg : Config) (project_root : String) : String :=
  projectDirOf cfg project_root ++ "/metadata.json"

def indexPathOf (cfg : Config) (project_root : String) : String :=
  projectDirOf cfg project_root ++ "/index.json"

/-- `on_session_start` (lines 66-114): detect the root, derive slug, hash
and directory name, optionally create the storage directory and update
`metadata.json` and `index.json`, then write the four output keys into the
context and signal `"continue"`.  An error raised by either JSON update
propagates to the caller unmodified (the source has no handler around these
calls). -/
def on_session_start (cfg : Config) (env : Env) (fs : FsState) (ctx : Ctx) :
    Except String (FsState × Ctx × HookResult) :=
  let project_root := detect_project_root cfg.use_git_root env.gitTopLevel env.cwd
  let finish : FsState → FsState × Ctx × HookResult := fun fs' =>
    (fs',
     { ctx with
       storage_path := some (storagePathOf cfg project_root),
       project_root := some project_root,
       project_slug := some (generate_slug (pathName project_root)),
       project_dir_name := some (projectDirName project_root) },
     ⟨"continue"⟩)
  if cfg.create_dirs then
    let fs1 : FsState := { fs with dirs := storagePathOf cfg project_root :: fs.dirs }
    match update_project_metadata (lookupMeta fs1 (metaPathOf cfg project_root))
        project_root (get_git_remote env.gitRemote) (get_git_branch env.gitBranch) ctx env.now with
    | .error e => .error e
    | .ok meta =>
      let fs2 := setMetaFile fs1 (metaPathOf cfg project_root) (.doc meta)
      match update_project_index (lookupIndex fs2 (indexPathOf cfg project_root)) ctx env.now with
      | .error e => .error e
      | .ok sessions => .ok (finish (setIndexFile fs2 (indexPathOf cfg project_root) (.doc sessions)))
  else .ok (finish fs)

/-! ## Dictionary lemmas -/

theorem dictLookup_dictSet_same (o : JObj) (k : String) (v : JValue) :
    dictLookup k (dictSet o k v) = some v := by
  unfold dictSet
  by_cases h : o.any (fun kv => kv.1 == k) = true
  · rw [if_pos h]
    induction o with
    | nil => simp at h
    | cons kv o' ih =>
      rw [List.map_cons]
      by_cases hk : (kv.1 == k) = true
      · rw [if_pos hk]
        unfold dictLookup
        rw [List.find?_cons_of_pos _ (by simp)]
        rfl
      · rw [if_neg hk]
        unfold dictLookup
        rw [List.find?_cons]
        rw [Bool.not_eq_true] at hk
        rw [hk]
        apply ih
        simp only [List.any_cons, Bool.or_eq_true] at h
        rcases h with h' | h'
        · rw [h'] at hk; exact absurd hk (by simp)
        · exact h'
  · rw [if_neg h]
    rw [Bool.not_eq_true, List.any_eq_false] at h
    unfold dictLookup
    rw [List.find?_append]
    have hnone : o.find? (fun kv => kv.1 == k) = none := by
      rw [List.find?_eq_none]
      exact h
    simp [hnone, List.find?_cons]

theorem dictLookup_dictSet_other (o : JObj) {k q : String} (v : JValue) (h : ¬ q = k) :
    dictLookup q (dictSet o k v) = dictLookup q o := by
  have hkq : (k == q) = false := by
    rw [beq_eq_false_iff_ne]
    exact fun hq => h hq.symm
  unfold dictSet
  by_cases ha : o.any (fun kv => kv.1 == k) = true
  · rw [if_pos ha]
    clear ha
    induction o with
    | nil => rfl
    | cons kv o' ih =>
      by_cases hk : (kv.1 == k) = true
      · have hq : (kv.1 == q) = false := by
          rw [beq_eq_false_iff_ne]
          rw [beq_iff_eq] at hk
          rw [hk]
          exact fun hq => h hq.symm
        simp only [List.map_cons, if_pos hk, dictLookup, List.find?_cons, hkq, hq]
        exact ih
      · simp only [List.map_cons, if_neg hk, dictLookup, List.find?_cons]
        cases hq : (kv.1 == q) with
        | true => rfl
        | false => exact ih
  · rw [if_neg ha]
    unfold dictLookup
    rw [List.find?_append]
    cases hf : o.find? (fun kv => kv.1 == q) with
    | some kv => simp
    | none => simp [List.find?_cons, hkq]

theorem dictLookup_dictUpdate_notin :
    ∀ (upd : JObj) (o : JObj) (q : String), (∀ kv ∈ upd, ¬ q = kv.1) →
      dictLookup q (dictUpdate o upd) = dictLookup q o := by
  intro upd
  induction upd with
  | nil => intro o q _; rfl
  | cons kv rest ih =>
    intro o q h
    show dictLookup q (dictUpdate (dictSet o kv.1 kv.2) rest) = dictLookup q o
    rw [ih (dictSet o kv.1 kv.2) q (fun x hx => h x (List.mem_cons_of_mem _ hx)),
        dictLookup_dictSet_other o kv.2 (h kv (List.mem_cons_self _ _))]

/-! ## Sorting lemmas -/

/-- The order Python's stable `reverse=True` sort by timestamp realises:
`a` may precede `b` iff `b`'s timestamp is not greater. -/
def sessLe (a b : SessionEntry) : Prop := b.timestamp ≤ a.timestamp

instance : DecidableRel sessLe := fun a b =>
  inferInstanceAs (Decidable (b.timestamp ≤ a.timestamp))

instance : IsTotal SessionEntry sessLe :=
  ⟨fun a b => le_total b.timestamp a.timestamp⟩

instance : IsTrans SessionEntry sessLe :=
  ⟨fun _ _ _ hab hbc => le_trans hbc hab⟩

theorem insertDesc_eq_orderedInsert (e : SessionEntry) :
    ∀ l : List SessionEntry, insertDesc e l = List.orderedInsert sessLe e l := by
  intro l
  induction l with
  | nil => rfl
  | cons x xs ih =>
    show (if e.timestamp < x.timestamp then x :: insertDesc e xs else e :: x :: xs) = _
    rw [List.orderedInsert]
    by_cases h : e.timestamp < x.timestamp
    · rw [if_pos h, if_neg (by simpa [sessLe] using h), ih]
    · rw [if_neg h, if_pos (by simpa [sessLe] using h)]

theorem sortSessionsDesc_eq_insertionSort :
    ∀ l : List SessionEntry, sortSessionsDesc l = List.insertionSort sessLe l := by
  intro l
  induction l with
  | nil => rfl
  | cons e rest ih =>
    show insertDesc e (sortSessionsDesc rest) = _
    rw [ih, insertDesc_eq_orderedInsert, List.insertionSort]

theorem sortSessionsDesc_perm (l : List SessionEntry) :
    List.Perm (sortSessionsDesc l) l := by
  rw [sortSessionsDesc_eq_insertionSort]
  exact List.perm_insertionSort sessLe l

theorem sortSessionsDesc_sorted (l : List SessionEntry) :
    List.Sorted sessLe (sortSessionsDesc l) := by
  rw [sortSessionsDesc_eq_insertionSort]
  exact List.sorted_insertionSort sessLe l

theorem sortSessionsDesc_length (l : List SessionEntry) :
    (sortSessionsDesc l).length = l.length :=
  (sortSessionsDesc_perm l).length_eq

/-! ## Run lemmas for `on_session_start` -/

/-- The project root one call resolves. -/
def rootOf (cfg : Config) (env : Env) : String :=
  detect_project_root cfg.use_git_root env.gitTopLevel env.cwd

/-- The context after a call: the four output keys are set, everything else
is untouched. -/
def ctxOut (cfg : Config) (env : Env) (ctx : Ctx) : Ctx :=
  { ctx with
    storage_path := some (storagePathOf cfg (rootOf cfg env)),
    project_root := some (rootOf cfg env),
    project_slug := some (generate_slug (pathName (rootOf cfg env))),
    project_dir_name := some (projectDirName (rootOf cfg env)) }

/-- The filesystem state after a successful call with `create_dirs` on:
the storage directory is recorded and both JSON files rewritten. -/
def fsOut (cfg : Config) (env : Env) (fs : FsState) (d : JObj) (l : List SessionEntry) :
    FsState :=
  setIndexFile
    (setMetaFile { fs with dirs := storagePathOf cfg (rootOf cfg env) :: fs.dirs }
      (metaPathOf cfg (rootOf cfg env)) (.doc d))
    (indexPathOf cfg (rootOf cfg env)) (.doc l)

theorem lookupMeta_setIndexFile (fs : FsState) (p q : String) (i : IndexFile) :
    lookupMeta (setIndexFile fs q i) p = lookupMeta fs p := rfl

theorem lookupIndex_setMetaFile (fs : FsState) (p q : String) (m : MetaFile) :
    lookupIndex (setMetaFile fs q m) p = lookupIndex fs p := rfl

theorem lookupMeta_setMetaFile_same (fs : FsState) (p : String) (m : MetaFile) :
    lookupMeta (setMetaFile fs p m) p = m := by
  unfold lookupMeta setMetaFile
  rw [List.find?_cons_of_pos _ (by simp)]

theorem lookupIndex_setIndexFile_same (fs : FsState) (p : String) (i : IndexFile) :
    lookupIndex (setIndexFile fs p i) p = i := by
  unfold lookupIndex setIndexFile
  rw [List.find?_cons_of_pos _ (by simp)]

/-- A successful run: with `create_dirs` on and both updates succeeding,
the call returns the rewritten filesystem, the annotated context and
`"continue"`. -/
theorem on_session_start_ok (cfg : Config) (env : Env) (fs : FsState) (ctx : Ctx)
    (d : JObj) (l : List SessionEntry)
    (hcd : cfg.create_dirs = true)
    (hm : update_project_metadata (lookupMeta fs (metaPathOf cfg (rootOf cfg env)))
      (rootOf cfg env) (get_git_remote env.gitRemote) (get_git_branch env.gitBranch)
      ctx env.now = .ok d)
    (hi : update_project_index (lookupIndex fs (indexPathOf cfg (rootOf cfg env)))
      ctx env.now = .ok l) :
    on_session_start cfg env fs ctx =
      .ok (fsOut cfg env fs d l, ctxOut cfg env ctx, ⟨"continue"⟩) := by
  unfold rootOf at hm hi
  unfold on_session_start
  rw [hcd]
  simp only [if_true]
  have h1 : update_project_metadata (lookupMeta { fs with
        dirs := storagePathOf cfg (detect_project_root cfg.use_git_root env.gitTopLevel env.cwd)
          :: fs.dirs }
        (metaPathOf cfg (detect_project_root cfg.use_git_root env.gitTopLevel env.cwd)))
      (detect_project_root cfg.use_git_root env.gitTopLevel env.cwd)
      (get_git_remote env.gitRemote) (get_git_branch env.gitBranch) ctx env.now = .ok d := hm
  have h2 : update_project_index (lookupIndex (setMetaFile { fs with
        dirs := storagePathOf cfg (detect_project_root cfg.use_git_root env.gitTopLevel env.cwd)
          :: fs.dirs }
        (metaPathOf cfg (detect_project_root cfg.use_git_root env.gitTopLevel env.cwd))
        (.doc d))
        (indexPathOf cfg (detect_project_root cfg.use_git_root env.gitTopLevel env.cwd)))
      ctx env.now = .ok l := hi
  simp only [h1, h2]
  rfl

/-- A malformed `metadata.json` propagates its parse error out of
`on_session_start` unmodified. -/
theorem on_session_start_meta_error (cfg : Config) (env : Env) (fs : FsState) (ctx : Ctx)
    (e : String) (hcd : cfg.create_dirs = true)
    (hmeta : lookupMeta fs (metaPathOf cfg (rootOf cfg env)) = .malformed e) :
    on_session_start cfg env fs ctx = .error e := by
  unfold rootOf at hmeta
  unfold on_session_start
  rw [hcd]
  simp only [if_true]
  have h1 : lookupMeta { fs with
      dirs := storagePathOf cfg (detect_project_root cfg.use_git_root env.gitTopLevel env.cwd)
        :: fs.dirs }
      (metaPathOf cfg (detect_project_root cfg.use_git_root env.gitTopLevel env.cwd)) =
      .malformed e := hmeta
  rw [h1]
  rfl

/-- A malformed `index.json` propagates its parse error out of
`on_session_start` unmodified, whenever the metadata update itself
succeeded. -/
theorem on_session_start_index_error (cfg : Config) (env : Env) (fs : FsState) (ctx : Ctx)
    (e : String) (d : JObj) (hcd : cfg.create_dirs = true)
    (hm : update_project_metadata (lookupMeta fs (metaPathOf cfg (rootOf cfg env)))
      (rootOf cfg env) (get_git_remote env.gitRemote) (get_git_branch env.gitBranch)
      ctx env.now = .ok d)
    (hidx : lookupIndex fs (indexPathOf cfg (rootOf cfg env)) = .malformed e) :
    on_session_start cfg env fs ctx = .error e := by
  unfold rootOf at hm hidx
  unfold on_session_start
  rw [hcd]
  simp only [if_true]
  have h1 : update_project_metadata (lookupMeta { fs with
        dirs := storagePathOf cfg (detect_project_root cfg.use_git_root env.gitTopLevel env.cwd)
          :: fs.dirs }
        (metaPathOf cfg (detect_project_root cfg.use_git_root env.gitTopLevel env.cwd)))
      (detect_project_root cfg.use_git_root env.gitTopLevel env.cwd)
      (get_git_remote env.gitRemote) (get_git_branch env.gitBranch) ctx env.now = .ok d := hm
  have h2 : lookupIndex (setMetaFile { fs with
        dirs := storagePathOf cfg (detect_project_root cfg.use_git_root env.gitTopLevel env.cwd)
          :: fs.dirs }
        (metaPathOf cfg (detect_project_root cfg.use_git_root env.gitTopLevel env.cwd))
        (.doc d))
        (indexPathOf cfg (detect_project_root cfg.use_git_root env.gitTopLevel env.cwd)) =
      .malformed e := hidx
  simp only [h1, h2]
  rfl

/-! ## Metadata upsert lookup lemmas -/

theorem metaUpdates_unfold (o : JObj) (fp : String) (gr gb : Option String)
    (pu : Option String) (now : String) :
    dictUpdate o (metaUpdates fp gr gb pu now) =
      dictSet (dictSet (dictSet (dictSet (dictSet o "full_path" (.str fp))
        "git_remote" (optStr gr)) "git_branch" (optStr gb))
        "last_accessed" (.str now)) "purpose" (.str (pu.getD "Amplifier CLI session")) := rfl

theorem metaUpdates_lookups (o : JObj) (fp : String) (gr gb : Option String)
    (pu : Option String) (now : String) :
    dictLookup "full_path" (dictUpdate o (metaUpdates fp gr gb pu now)) = some (.str fp) ∧
    dictLookup "git_remote" (dictUpdate o (metaUpdates fp gr gb pu now)) = some (optStr gr) ∧
    dictLookup "git_branch" (dictUpdate o (metaUpdates fp gr gb pu now)) = some (optStr gb) ∧
    dictLookup "last_accessed" (dictUpdate o (metaUpdates fp gr gb pu now)) = some (.str now) ∧
    dictLookup "purpose" (dictUpdate o (metaUpdates fp gr gb pu now)) =
      some (.str (pu.getD "Amplifier CLI session")) := by
  rw [metaUpdates_unfold]
  refine ⟨?_, ?_, ?_, ?_, ?_⟩
  · rw [dictLookup_dictSet_other _ _ (by decide), dictLookup_dictSet_other _ _ (by decide),
        dictLookup_dictSet_other _ _ (by decide), dictLookup_dictSet_other _ _ (by decide),
        dictLookup_dictSet_same]
  · rw [dictLookup_dictSet_other _ _ (by decide), dictLookup_dictSet_other _ _ (by decide),
        dictLookup_dictSet_other _ _ (by decide), dictLookup_dictSet_same]
  · rw [dictLookup_dictSet_other _ _ (by decide), dictLookup_dictSet_other _ _ (by decide),
        dictLookup_dictSet_same]
  · rw [dictLookup_dictSet_other _ _ (by decide), dictLookup_dictSet_same]
  · rw [dictLookup_dictSet_same]

theorem metaUpdates_keys (fp : String) (gr gb : Option String) (pu : Option String)
    (now : String) {q : String}
    (h1 : ¬ q = "full_path") (h2 : ¬ q = "git_remote") (h3 : ¬ q = "git_branch")
    (h4 : ¬ q = "last_accessed") (h5 : ¬ q = "purpose") :
    ∀ kv ∈ metaUpdates fp gr gb pu now, ¬ q = kv.1 := by
  intro kv hkv
  simp only [metaUpdates, List.mem_cons, List.not_mem_nil, or_false] at hkv
  rcases hkv with h | h | h | h | h <;> subst h <;>
    first
    | exact h1
    | exact h2
    | exact h3
    | exact h4
    | exact h5

/-! ## Digest length -/

theorem sha256Hex_length (msg : List Nat) : (sha256Hex msg).length = 64 := rfl

/-! ## The claims -/

set_option maxRecDepth 40000

/-- C1: The project directory name is a deterministic, pure function of the
root path only: it equals `slug(basename(root)) ++ "-" ++ hash(root)`; for
the root paths "/path1/myapp" and "/path2/myapp" both directory names start
with "myapp-" and the two names are unequal. -/
theorem c1_directory_name :
    (∀ root : String, projectDirName root =
      generate_slug (pathName root) ++ "-" ++ generate_path_hash root) ∧
    (∀ p q : String, p = q → projectDirName p = projectDirName q) ∧
    (projectDirName "/path1/myapp").data.take 6 = "myapp-".data ∧
    (projectDirName "/path2/myapp").data.take 6 = "myapp-".data ∧
    projectDirName "/path1/myapp" ≠ projectDirName "/path2/myapp" := by
  refine ⟨fun root => rfl, fun p q h => h ▸ rfl, ?_, ?_, ?_⟩ <;> decide

/-- Witness for C1 at a concrete input, discharging the determinism
hypothesis. -/
theorem c1_directory_name_witness :
    projectDirName "/x/a" = projectDirName "/x/a" :=
  c1_directory_name.2.1 "/x/a" "/x/a" rfl

/-- C2: `_generate_slug` is total and every output matches
`^[a-z0-9]+(-[a-z0-9]+)*$` or equals "default"; with the five concrete
examples from the specification. -/
theorem c2_slug_total :
    (∀ s : String, matchesSlugRe (generate_slug s).data = true ∨
      generate_slug s = "default") ∧
    generate_slug "" = "default" ∧
    generate_slug "!!!" = "default" ∧
    generate_slug "My Project_2" = "my-project-2" ∧
    generate_slug "a---b" = "a-b" ∧
    generate_slug "-x-" = "x" := by
  refine ⟨fun s => Or.inl (generate_slug_matches s), ?_, ?_, ?_, ?_, ?_⟩ <;> decide

/-- C3: `_generate_path_hash` is the first 6 hex characters of the SHA-256
digest of the verbatim UTF-8 encoding of the path, is deterministic, and
always has length exactly 6. -/
theorem c3_path_hash :
    (∀ p : String, generate_path_hash p =
      String.mk ((sha256Hex (utf8Bytes p.data)).take 6)) ∧
    (∀ p : String, generate_path_hash p = generate_path_hash p) ∧
    (∀ p : String, (generate_path_hash p).length = 6) := by
  refine ⟨fun p => rfl, fun p => rfl, fun p => ?_⟩
  show ((sha256Hex (utf8Bytes p.data)).take 6).length = 6
  rw [List.length_take, sha256Hex_length]
  decide

/-- C7: every failure of the git top-level query (tool missing, not a
repository, timeout) is absorbed — the query yields no value and root
detection falls back to the current working directory; the same fallback
applies when detection is disabled. -/
theorem c7_git_failures_absorbed :
    (∀ cwd : String,
      get_git_root .calledProcessError = none ∧
      get_git_root .timeoutExpired = none ∧
      get_git_root .fileNotFound = none ∧
      detect_project_root true .calledProcessError cwd = cwd ∧
      detect_project_root true .timeoutExpired cwd = cwd ∧
      detect_project_root true .fileNotFound cwd = cwd) ∧
    (∀ (g : GitOutcome) (cwd : String), detect_project_root false g cwd = cwd) :=
  ⟨fun _ => ⟨rfl, rfl, rfl, rfl, rfl, rfl⟩, fun _ _ => rfl⟩

/-- C8: with `create_dirs` off, `on_session_start` leaves the filesystem
untouched, still writes the four computed keys into the context, and
returns the "continue" outcome. -/
theorem c8_no_create_dirs (cfg : Config) (env : Env) (fs : FsState) (ctx : Ctx)
    (h : cfg.create_dirs = false) :
    on_session_start cfg env fs ctx =
      .ok (fs, ctxOut cfg env ctx, ⟨"continue"⟩) := by
  unfold on_session_start
  rw [h]
  rfl

/-- Witness for C8 at concrete inputs. -/
theorem c8_no_create_dirs_witness :
    on_session_start ⟨false, "/base", false⟩
        ⟨"/test/project", .fileNotFound, .fileNotFound, .fileNotFound, "2024-01-01T00:00:00"⟩
        ⟨[], [], []⟩ {} =
      .ok (⟨[], [], []⟩,
        ctxOut ⟨false, "/base", false⟩
          ⟨"/test/project", .fileNotFound, .fileNotFound, .fileNotFound, "2024-01-01T00:00:00"⟩
          {},
        ⟨"continue"⟩) :=
  c8_no_create_dirs _ _ _ _ rfl

/-- C10: `_generate_slug` is idempotent, and the fallback "default" is a
fixed point. -/
theorem c10_slug_idempotent :
    (∀ s : String, generate_slug (generate_slug s) = generate_slug s) ∧
    generate_slug "default" = "default" :=
  ⟨generate_slug_idem, by decide⟩

/-- C9: a metadata upsert on an existing document preserves every key other
than the seven recognised fields, value included — the update merges into
the loaded record instead of replacing it. -/
theorem c9_extra_keys_preserved (o : JObj) (q root : String)
    (gr gb : Option String) (ctx : Ctx) (now : String)
    (h : ¬ q ∈ ["full_path", "git_remote", "git_branch", "last_accessed",
                "purpose", "first_seen", "slug"]) :
    ∃ d, update_project_metadata (.doc o) root gr gb ctx now = .ok d ∧
      dictLookup q d = dictLookup q o := by
  refine ⟨_, rfl, ?_⟩
  apply dictLookup_dictUpdate_notin
  simp only [List.mem_cons, List.not_mem_nil, or_false, not_or] at h
  exact metaUpdates_keys _ _ _ _ _ h.1 h.2.1 h.2.2.1 h.2.2.2.1 h.2.2.2.2.1

/-- Witness for C9: a concrete extra key survives an upsert unchanged. -/
theorem c9_extra_keys_preserved_witness :
    ∃ d, update_project_metadata (.doc [("custom", JValue.num 7)]) "/r" none none {} "t1" =
        .ok d ∧
      dictLookup "custom" d = dictLookup "custom" [("custom", JValue.num 7)] :=
  c9_extra_keys_preserved [("custom", JValue.num 7)] "custom" "/r" none none {} "t1"
    (by decide)

/-- C6: a malformed `metadata.json` or `index.json` makes `on_session_start`
return that parse error unmodified — no retry, no recovery, no fallback
document. -/
theorem c6_parse_errors_propagate :
    (∀ (cfg : Config) (env : Env) (fs : FsState) (ctx : Ctx) (e : String),
      cfg.create_dirs = true →
      lookupMeta fs (metaPathOf cfg (rootOf cfg env)) = .malformed e →
      on_session_start cfg env fs ctx = .error e) ∧
    (∀ (cfg : Config) (env : Env) (fs : FsState) (ctx : Ctx) (e : String),
      cfg.create_dirs = true →
      lookupMeta fs (metaPathOf cfg (rootOf cfg env)) = .missing →
      lookupIndex fs (indexPathOf cfg (rootOf cfg env)) = .malformed e →
      on_session_start cfg env fs ctx = .error e) ∧
    (∀ (cfg : Config) (env : Env) (fs : FsState) (ctx : Ctx) (e : String) (o : JObj),
      cfg.create_dirs = true →
      lookupMeta fs (metaPathOf cfg (rootOf cfg env)) = .doc o →
      lookupIndex fs (indexPathOf cfg (rootOf cfg env)) = .malformed e →
      on_session_start cfg env fs ctx = .error e) := by
  refine ⟨fun cfg env fs ctx e hcd hmeta =>
      on_session_start_meta_error cfg env fs ctx e hcd hmeta,
    fun cfg env fs ctx e hcd hmeta hidx => ?_,
    fun cfg env fs ctx e o hcd hmeta hidx => ?_⟩
  · refine on_session_start_index_error cfg env fs ctx e
      (dictUpdate [("first_seen", .str env.now),
        ("slug", .str (generate_slug (pathName (rootOf cfg env))))]
        (metaUpdates (rootOf cfg env) (get_git_remote env.gitRemote)
          (get_git_branch env.gitBranch) ctx.purpose env.now))
      hcd ?_ hidx
    rw [hmeta]
    rfl
  · refine on_session_start_index_error cfg env fs ctx e
      (dictUpdate o (metaUpdates (rootOf cfg env) (get_git_remote env.gitRemote)
        (get_git_branch env.gitBranch) ctx.purpose env.now))
      hcd ?_ hidx
    rw [hmeta]
    rfl

theorem dictLookup_base_first_seen (now slug : String) :
    dictLookup "first_seen"
      [("first_seen", JValue.str now), ("slug", JValue.str slug)] =
      some (JValue.str now) := by
  unfold dictLookup
  rw [List.find?_cons_of_pos _ (by rfl)]
  rfl

/-- C4: a metadata upsert on an existing record keeps `first_seen` and
`slug` and overwrites `last_accessed`, `full_path`, `git_remote`,
`git_branch` and `purpose`; two `on_session_start` calls for the same
project keep `first_seen` from the first call and move `last_accessed` to
the second call's time. -/
theorem c4_metadata_upsert :
    (∀ (o : JObj) (root : String) (gr gb : Option String) (ctx : Ctx) (now : String),
      ∃ d, update_project_metadata (.doc o) root gr gb ctx now = .ok d ∧
        dictLookup "first_seen" d = dictLookup "first_seen" o ∧
        dictLookup "slug" d = dictLookup "slug" o ∧
        dictLookup "full_path" d = some (.str root) ∧
        dictLookup "git_remote" d = some (optStr gr) ∧
        dictLookup "git_branch" d = some (optStr gb) ∧
        dictLookup "last_accessed" d = some (.str now) ∧
        dictLookup "purpose" d = some (.str (ctx.purpose.getD "Amplifier CLI session"))) ∧
    (∀ (cfg : Config) (env1 env2 : Env) (fs : FsState) (ctx1 ctx2 : Ctx),
      cfg.create_dirs = true → cfg.use_git_root = false → env2.cwd = env1.cwd →
      lookupMeta fs (metaPathOf cfg (rootOf cfg env1)) = .missing →
      lookupIndex fs (indexPathOf cfg (rootOf cfg env1)) = .missing →
      ∃ (fs1 fs2 : FsState) (c1 c2 : Ctx) (r1 r2 : HookResult) (d1 d2 : JObj),
        on_session_start cfg env1 fs ctx1 = .ok (fs1, c1, r1) ∧
        on_session_start cfg env2 fs1 ctx2 = .ok (fs2, c2, r2) ∧
        lookupMeta fs1 (metaPathOf cfg (rootOf cfg env1)) = .doc d1 ∧
        lookupMeta fs2 (metaPathOf cfg (rootOf cfg env1)) = .doc d2 ∧
        dictLookup "first_seen" d1 = some (.str env1.now) ∧
        dictLookup "last_accessed" d1 = some (.str env1.now) ∧
        dictLookup "first_seen" d2 = some (.str env1.now) ∧
        dictLookup "last_accessed" d2 = some (.str env2.now)) := by
  refine ⟨fun o root gr gb ctx now => ⟨_, rfl, ?_, ?_, ?_, ?_, ?_, ?_, ?_⟩, ?_⟩
  · exact dictLookup_dictUpdate_notin _ _ _
      (@metaUpdates_keys root gr gb ctx.purpose now "first_seen"
        (by decide) (by decide) (by decide) (by decide) (by decide))
  · exact dictLookup_dictUpdate_notin _ _ _
      (@metaUpdates_keys root gr gb ctx.purpose now "slug"
        (by decide) (by decide) (by decide) (by decide) (by decide))
  · exact (metaUpdates_lookups o root gr gb ctx.purpose now).1
  · exact (metaUpdates_lookups o root gr gb ctx.purpose now).2.1
  · exact (metaUpdates_lookups o root gr gb ctx.purpose now).2.2.1
  · exact (metaUpdates_lookups o root gr gb ctx.purpose now).2.2.2.1
  · exact (metaUpdates_lookups o root gr gb ctx.purpose now).2.2.2.2
  intro cfg env1 env2 fs ctx1 ctx2 hcd huse hcwd hmeta hidx
  have hroot21 : rootOf cfg env2 = rootOf cfg env1 := by
    unfold rootOf detect_project_root
    rw [huse, hcwd]
    rfl
  have hm1 : update_project_metadata (lookupMeta fs (metaPathOf cfg (rootOf cfg env1)))
      (rootOf cfg env1) (get_git_remote env1.gitRemote) (get_git_branch env1.gitBranch)
      ctx1 env1.now = .ok (dictUpdate
        [("first_seen", .str env1.now),
         ("slug", .str (generate_slug (pathName (rootOf cfg env1))))]
        (metaUpdates (rootOf cfg env1) (get_git_remote env1.gitRemote)
          (get_git_branch env1.gitBranch) ctx1.purpose env1.now)) := by
    rw [hmeta]
    rfl
  have hi1 : update_project_index (lookupIndex fs (indexPathOf cfg (rootOf cfg env1)))
      ctx1 env1.now = .ok (sortSessionsDesc ([] ++ [mkSessionEntry ctx1 env1.now])) := by
    rw [hidx]
    rfl
  have hcall1 := on_session_start_ok cfg env1 fs ctx1 _ _ hcd hm1 hi1
  set d1 : JObj := dictUpdate
    [("first_seen", .str env1.now),
     ("slug", .str (generate_slug (pathName (rootOf cfg env1))))]
    (metaUpdates (rootOf cfg env1) (get_git_remote env1.gitRemote)
      (get_git_branch env1.gitBranch) ctx1.purpose env1.now) with hd1
  set l1 : List SessionEntry := sortSessionsDesc ([] ++ [mkSessionEntry ctx1 env1.now])
    with hl1
  have hlm1 : lookupMeta (fsOut cfg env1 fs d1 l1) (metaPathOf cfg (rootOf cfg env1)) =
      .doc d1 := by
    unfold fsOut
    rw [lookupMeta_setIndexFile, lookupMeta_setMetaFile_same]
  have hlm2 : lookupMeta (fsOut cfg env1 fs d1 l1) (metaPathOf cfg (rootOf cfg env2)) =
      .doc d1 := by
    rw [hroot21]
    exact hlm1
  have hm2 : update_project_metadata
      (lookupMeta (fsOut cfg env1 fs d1 l1) (metaPathOf cfg (rootOf cfg env2)))
      (rootOf cfg env2) (get_git_remote env2.gitRemote) (get_git_branch env2.gitBranch)
      ctx2 env2.now = .ok (dictUpdate d1
        (metaUpdates (rootOf cfg env2) (get_git_remote env2.gitRemote)
          (get_git_branch env2.gitBranch) ctx2.purpose env2.now)) := by
    rw [hlm2]
    rfl
  have hli2 : lookupIndex (fsOut cfg env1 fs d1 l1) (indexPathOf cfg (rootOf cfg env2)) =
      .doc l1 := by
    rw [hroot21]
    unfold fsOut
    rw [lookupIndex_setIndexFile_same]
  have hi2 : update_project_index
      (lookupIndex (fsOut cfg env1 fs d1 l1) (indexPathOf cfg (rootOf cfg env2)))
      ctx2 env2.now = .ok (sortSessionsDesc (l1 ++ [mkSessionEntry ctx2 env2.now])) := by
    rw [hli2]
    rfl
  have hcall2 := on_session_start_ok cfg env2 (fsOut cfg env1 fs d1 l1) ctx2 _ _ hcd hm2 hi2
  set d2 : JObj := dictUpdate d1
    (metaUpdates (rootOf cfg env2) (get_git_remote env2.gitRemote)
      (get_git_branch env2.gitBranch) ctx2.purpose env2.now) with hd2
  set l2 : List SessionEntry := sortSessionsDesc (l1 ++ [mkSessionEntry ctx2 env2.now])
    with hl2
  refine ⟨fsOut cfg env1 fs d1 l1, fsOut cfg env2 (fsOut cfg env1 fs d1 l1) d2 l2,
    ctxOut cfg env1 ctx1, ctxOut cfg env2 ctx2, ⟨"continue"⟩, ⟨"continue"⟩, d1, d2,
    hcall1, hcall2, hlm1, ?_, ?_, ?_, ?_, ?_⟩
  · unfold fsOut
    rw [lookupMeta_setIndexFile, hroot21, lookupMeta_setMetaFile_same]
  · rw [hd1, dictLookup_dictUpdate_notin _ _ _
      (@metaUpdates_keys (rootOf cfg env1) (get_git_remote env1.gitRemote)
        (get_git_branch env1.gitBranch) ctx1.purpose env1.now "first_seen"
        (by decide) (by decide) (by decide) (by decide) (by decide))]
    exact dictLookup_base_first_seen env1.now (generate_slug (pathName (rootOf cfg env1)))
  · rw [hd1]
    exact (metaUpdates_lookups _ _ _ _ _ _).2.2.2.1
  · rw [hd2, dictLookup_dictUpdate_notin _ _ _
      (@metaUpdates_keys (rootOf cfg env2) (get_git_remote env2.gitRemote)
        (get_git_branch env2.gitBranch) ctx2.purpose env2.now "first_seen"
        (by decide) (by decide) (by decide) (by decide) (by decide))]
    rw [hd1, dictLookup_dictUpdate_notin _ _ _
      (@metaUpdates_keys (rootOf cfg env1) (get_git_remote env1.gitRemote)
        (get_git_branch env1.gitBranch) ctx1.purpose env1.now "first_seen"
        (by decide) (by decide) (by decide) (by decide) (by decide))]
    exact dictLookup_base_first_seen env1.now (generate_slug (pathName (rootOf cfg env1)))
  · rw [hd2]
    exact (metaUpdates_lookups _ _ _ _ _ _).2.2.2.1

/-- Witness for C4: the two-call scenario at concrete inputs. -/
theorem c4_metadata_upsert_witness :
    ∃ (fs1 fs2 : FsState) (c1 c2 : Ctx) (r1 r2 : HookResult) (d1 d2 : JObj),
      on_session_start ⟨false, "/base", true⟩
          ⟨"/test/project", .fileNotFound, .fileNotFound, .fileNotFound, "t1"⟩
          ⟨[], [], []⟩ {} = .ok (fs1, c1, r1) ∧
      on_session_start ⟨false, "/base", true⟩
          ⟨"/test/project", .fileNotFound, .fileNotFound, .fileNotFound, "t2"⟩
          fs1 {} = .ok (fs2, c2, r2) ∧
      lookupMeta fs1 (metaPathOf ⟨false, "/base", true⟩
        (rootOf ⟨false, "/base", true⟩
          ⟨"/test/project", .fileNotFound, .fileNotFound, .fileNotFound, "t1"⟩)) =
        .doc d1 ∧
      lookupMeta fs2 (metaPathOf ⟨false, "/base", true⟩
        (rootOf ⟨false, "/base", true⟩
          ⟨"/test/project", .fileNotFound, .fileNotFound, .fileNotFound, "t1"⟩)) =
        .doc d2 ∧
      dictLookup "first_seen" d1 = some (.str "t1") ∧
      dictLookup "last_accessed" d1 = some (.str "t1") ∧
      dictLookup "first_seen" d2 = some (.str "t1") ∧
      dictLookup "last_accessed" d2 = some (.str "t2") :=
  c4_metadata_upsert.2 ⟨false, "/base", true⟩
    ⟨"/test/project", .fileNotFound, .fileNotFound, .fileNotFound, "t1"⟩
    ⟨"/test/project", .fileNotFound, .fileNotFound, .fileNotFound, "t2"⟩
    ⟨[], [], []⟩ {} {} rfl rfl rfl rfl rfl

/-- C5: every session-index write appends exactly one entry — session id
from the context (default "unknown"), the current timestamp, message count
(default 0) — never removes or deduplicates existing entries, and leaves
the sequence sorted by timestamp descending; three calls against the same
project yield exactly 3 entries sorted by timestamp descending. -/
theorem c5_index_append :
    (∀ (ctx : Ctx) (now : String), mkSessionEntry ctx now =
      ⟨ctx.session_id.getD "unknown", now, ctx.message_count.getD 0⟩) ∧
    (∀ (sessions : List SessionEntry) (ctx : Ctx) (now : String),
      ∃ l, update_project_index (.doc sessions) ctx now = .ok l ∧
        List.Perm l (sessions ++ [mkSessionEntry ctx now]) ∧
        l.length = sessions.length + 1 ∧
        List.Sorted sessLe l) ∧
    (∀ (ctx : Ctx) (now : String),
      update_project_index .missing ctx now = .ok [mkSessionEntry ctx now]) ∧
    (∀ (cfg : Config) (env1 env2 env3 : Env) (fs : FsState) (ctx1 ctx2 ctx3 : Ctx),
      cfg.create_dirs = true → cfg.use_git_root = false →
      env2.cwd = env1.cwd → env3.cwd = env1.cwd →
      ctx1.session_id = some "session-0" → ctx2.session_id = some "session-1" →
      ctx3.session_id = some "session-2" →
      lookupMeta fs (metaPathOf cfg (rootOf cfg env1)) = .missing →
      lookupIndex fs (indexPathOf cfg (rootOf cfg env1)) = .missing →
      ∃ (fs1 fs2 fs3 : FsState) (c1 c2 c3 : Ctx) (r1 r2 r3 : HookResult)
        (l : List SessionEntry),
        on_session_start cfg env1 fs ctx1 = .ok (fs1, c1, r1) ∧
        on_session_start cfg env2 fs1 ctx2 = .ok (fs2, c2, r2) ∧
        on_session_start cfg env3 fs2 ctx3 = .ok (fs3, c3, r3) ∧
        lookupIndex fs3 (indexPathOf cfg (rootOf cfg env1)) = .doc l ∧
        l.length = 3 ∧
        List.Sorted sessLe l ∧
        List.Perm l [mkSessionEntry ctx1 env1.now, mkSessionEntry ctx2 env2.now,
          mkSessionEntry ctx3 env3.now]) := by
  refine ⟨fun _ _ => rfl,
    fun sessions ctx now => ⟨_, rfl, sortSessionsDesc_perm _, ?_, sortSessionsDesc_sorted _⟩,
    fun _ _ => rfl, ?_⟩
  · rw [sortSessionsDesc_length, List.length_append]
    rfl
  intro cfg env1 env2 env3 fs ctx1 ctx2 ctx3 hcd huse hcwd2 hcwd3 _ _ _ hmeta hidx
  have hroot21 : rootOf cfg env2 = rootOf cfg env1 := by
    unfold rootOf detect_project_root
    rw [huse, hcwd2]
    rfl
  have hroot31 : rootOf cfg env3 = rootOf cfg env1 := by
    unfold rootOf detect_project_root
    rw [huse, hcwd3]
    rfl
  have hm1 : update_project_metadata (lookupMeta fs (metaPathOf cfg (rootOf cfg env1)))
      (rootOf cfg env1) (get_git_remote env1.gitRemote) (get_git_branch env1.gitBranch)
      ctx1 env1.now = .ok (dictUpdate
        [("first_seen", .str env1.now),
         ("slug", .str (generate_slug (pathName (rootOf cfg env1))))]
        (metaUpdates (rootOf cfg env1) (get_git_remote env1.gitRemote)
          (get_git_branch env1.gitBranch) ctx1.purpose env1.now)) := by
    rw [hmeta]
    rfl
  have hi1 : update_project_index (lookupIndex fs (indexPathOf cfg (rootOf cfg env1)))
      ctx1 env1.now = .ok (sortSessionsDesc ([] ++ [mkSessionEntry ctx1 env1.now])) := by
    rw [hidx]
    rfl
  have hcall1 := on_session_start_ok cfg env1 fs ctx1 _ _ hcd hm1 hi1
  set d1 : JObj := dictUpdate
    [("first_seen", .str env1.now),
     ("slug", .str (generate_slug (pathName (rootOf cfg env1))))]
    (metaUpdates (rootOf cfg env1) (get_git_remote env1.gitRemote)
      (get_git_branch env1.gitBranch) ctx1.purpose env1.now) with hd1
  set l1 : List SessionEntry := sortSessionsDesc ([] ++ [mkSessionEntry ctx1 env1.now])
    with hl1
  have hlm2 : lookupMeta (fsOut cfg env1 fs d1 l1) (metaPathOf cfg (rootOf cfg env2)) =
      .doc d1 := by
    rw [hroot21]
    unfold fsOut
    rw [lookupMeta_setIndexFile, lookupMeta_setMetaFile_same]
  have hm2 : update_project_metadata
      (lookupMeta (fsOut cfg env1 fs d1 l1) (metaPathOf cfg (rootOf cfg env2)))
      (rootOf cfg env2) (get_git_remote env2.gitRemote) (get_git_branch env2.gitBranch)
      ctx2 env2.now = .ok (dictUpdate d1
        (metaUpdates (rootOf cfg env2) (get_git_remote env2.gitRemote)
          (get_git_branch env2.gitBranch) ctx2.purpose env2.now)) := by
    rw [hlm2]
    rfl
  have hli2 : lookupIndex (fsOut cfg env1 fs d1 l1) (indexPathOf cfg (rootOf cfg env2)) =
      .doc l1 := by
    rw [hroot21]
    unfold fsOut
    rw [lookupIndex_setIndexFile_same]
  have hi2 : update_project_index
      (lookupIndex (fsOut cfg env1 fs d1 l1) (indexPathOf cfg (rootOf cfg env2)))
      ctx2 env2.now = .ok (sortSessionsDesc (l1 ++ [mkSessionEntry ctx2 env2.now])) := by
    rw [hli2]
    rfl
  have hcall2 := on_session_start_ok cfg env2 (fsOut cfg env1 fs d1 l1) ctx2 _ _ hcd hm2 hi2
  set d2 : JObj := dictUpdate d1
    (metaUpdates (rootOf cfg env2) (get_git_remote env2.gitRemote)
      (get_git_branch env2.gitBranch) ctx2.purpose env2.now) with hd2
  set l2 : List SessionEntry := sortSessionsDesc (l1 ++ [mkSessionEntry ctx2 env2.now])
    with hl2
  have hlm3 : lookupMeta (fsOut cfg env2 (fsOut cfg env1 fs d1 l1) d2 l2)
      (metaPathOf cfg (rootOf cfg env3)) = .doc d2 := by
    rw [hroot31]
    unfold fsOut
    rw [lookupMeta_setIndexFile, hroot21, lookupMeta_setMetaFile_same]
  have hm3 : update_project_metadata
      (lookupMeta (fsOut cfg env2 (fsOut cfg env1 fs d1 l1) d2 l2)
        (metaPathOf cfg (rootOf cfg env3)))
      (rootOf cfg env3) (get_git_remote env3.gitRemote) (get_git_branch env3.gitBranch)
      ctx3 env3.now = .ok (dictUpdate d2
        (metaUpdates (rootOf cfg env3) (get_git_remote env3.gitRemote)
          (get_git_branch env3.gitBranch) ctx3.purpose env3.now)) := by
    rw [hlm3]
    rfl
  have hli3 : lookupIndex (fsOut cfg env2 (fsOut cfg env1 fs d1 l1) d2 l2)
      (indexPathOf cfg (rootOf cfg env3)) = .doc l2 := by
    rw [hroot31]
    unfold fsOut
    rw [hroot21, lookupIndex_setIndexFile_same]
  have hi3 : update_project_index
      (lookupIndex (fsOut cfg env2 (fsOut cfg env1 fs d1 l1) d2 l2)
        (indexPathOf cfg (rootOf cfg env3)))
      ctx3 env3.now = .ok (sortSessionsDesc (l2 ++ [mkSessionEntry ctx3 env3.now])) := by
    rw [hli3]
    rfl
  have hcall3 := on_session_start_ok cfg env3 (fsOut cfg env2 (fsOut cfg env1 fs d1 l1) d2 l2)
    ctx3 _ _ hcd hm3 hi3
  set l3 : List SessionEntry := sortSessionsDesc (l2 ++ [mkSessionEntry ctx3 env3.now])
    with hl3
  have hlen1 : l1.length = 1 := rfl
  have hlen2 : l2.length = 2 := by
    rw [hl2, sortSessionsDesc_length, List.length_append, hlen1]
    rfl
  have hlen3 : l3.length = 3 := by
    rw [hl3, sortSessionsDesc_length, List.length_append, hlen2]
    rfl
  refine ⟨fsOut cfg env1 fs d1 l1, fsOut cfg env2 (fsOut cfg env1 fs d1 l1) d2 l2,
    fsOut cfg env3 (fsOut cfg env2 (fsOut cfg env1 fs d1 l1) d2 l2)
      (dictUpdate d2
        (metaUpdates (rootOf cfg env3) (get_git_remote env3.gitRemote)
          (get_git_branch env3.gitBranch) ctx3.purpose env3.now)) l3,
    ctxOut cfg env1 ctx1, ctxOut cfg env2 ctx2, ctxOut cfg env3 ctx3,
    ⟨"continue"⟩, ⟨"continue"⟩, ⟨"continue"⟩, l3,
    hcall1, hcall2, hcall3, ?_, hlen3, ?_, ?_⟩
  · unfold fsOut
    rw [hroot31, lookupIndex_setIndexFile_same]
  · rw [hl3]
    exact sortSessionsDesc_sorted _
  · have p3 : List.Perm l3 (l2 ++ [mkSessionEntry ctx3 env3.now]) := by
      rw [hl3]
      exact sortSessionsDesc_perm _
    have p2 : List.Perm l2 (l1 ++ [mkSessionEntry ctx2 env2.now]) := by
      rw [hl2]
      exact sortSessionsDesc_perm _
    exact p3.trans (p2.append_right [mkSessionEntry ctx3 env3.now])

/-- Witness for C5: the three-call scenario at concrete inputs. -/
theorem c5_index_append_witness :
    ∃ (fs1 fs2 fs3 : FsState) (c1 c2 c3 : Ctx) (r1 r2 r3 : HookResult)
      (l : List SessionEntry),
      on_session_start ⟨false, "/base", true⟩
          ⟨"/test/project", .fileNotFound, .fileNotFound, .fileNotFound, "t1"⟩
          ⟨[], [], []⟩ { session_id := some "session-0" } = .ok (fs1, c1, r1) ∧
      on_session_start ⟨false, "/base", true⟩
          ⟨"/test/project", .fileNotFound, .fileNotFound, .fileNotFound, "t2"⟩
          fs1 { session_id := some "session-1" } = .ok (fs2, c2, r2) ∧
      on_session_start ⟨false, "/base", true⟩
          ⟨"/test/project", .fileNotFound, .fileNotFound, .fileNotFound, "t3"⟩
          fs2 { session_id := some "session-2" } = .ok (fs3, c3, r3) ∧
      lookupIndex fs3 (indexPathOf ⟨false, "/base", true⟩
        (rootOf ⟨false, "/base", true⟩
          ⟨"/test/project", .fileNotFound, .fileNotFound, .fileNotFound, "t1"⟩)) =
        .doc l ∧
      l.length = 3 ∧
      List.Sorted sessLe l ∧
      List.Perm l [mkSessionEntry { session_id := some "session-0" } "t1",
        mkSessionEntry { session_id := some "session-1" } "t2",
        mkSessionEntry { session_id := some "session-2" } "t3"] :=
  c5_index_append.2.2.2 ⟨false, "/base", true⟩
    ⟨"/test/project", .fileNotFound, .fileNotFound, .fileNotFound, "t1"⟩
    ⟨"/test/project", .fileNotFound, .fileNotFound, .fileNotFound, "t2"⟩
    ⟨"/test/project", .fileNotFound, .fileNotFound, .fileNotFound, "t3"⟩
    ⟨[], [], []⟩ { session_id := some "session-0" } { session_id := some "session-1" }
    { session_id := some "session-2" } rfl rfl rfl rfl rfl rfl rfl rfl rfl

/-- Witness for C6: a concretely malformed metadata file propagates its
error. -/
theorem c6_parse_errors_propagate_witness :
    on_session_start ⟨false, "/base", true⟩
        ⟨"/test/project", .fileNotFound, .fileNotFound, .fileNotFound, "t1"⟩
        ⟨[], [(metaPathOf ⟨false, "/base", true⟩
          (rootOf ⟨false, "/base", true⟩
            ⟨"/test/project", .fileNotFound, .fileNotFound, .fileNotFound, "t1"⟩),
          MetaFile.malformed "boom")], []⟩ {} = .error "boom" := by
  apply c6_parse_errors_propagate.1 _ _ _ _ _ rfl
  unfold lookupMeta
  rw [List.find?_cons_of_pos _ (by simp)]

end ProjectIsolation
